import Mathlib

/-!
# Verification of the `list2csv` column-evaluation and row-assembly pipeline

Shallow embedding of `src/list2csv/list2csv.py`: the `Writer` facade and its
column variants (`_Column`, `_Aggregator`, `_Counter`, `_MultiColumn`).

Python values flowing through the pipeline are modelled by the inductive
`Value` (strings, integers, and sequences of values).  Items are modelled as
attribute maps (association lists from attribute names to values), so that
`operator.attrgetter` becomes a lookup that can fail.  User-supplied callables
(field evaluators, aggregator functions) and format templates are modelled as
Lean functions returning `Option`, a raised exception being `none`.  The csv
module's `writerow` primitive is external to the library: the embedding makes
the rows passed to it explicit in the return value of each operation.
-/

set_option autoImplicit false

namespace List2csv

/-- A Python value as it flows through the pipeline: a string, an int, or a
sequence of values (used by multi-column evaluators). -/
inductive Value where
  | str (s : String)
  | int (n : Int)
  | list (vs : List Value)

/-- An item written to the csv: a map from attribute names to values,
modelling a Python object's attributes. -/
def Item : Type := List (String × Value)

/-- Python `getattr`: look the attribute up, `none` modelling the
`AttributeError` raised when the item lacks the attribute. -/
def getattr : Item → String → Option Value
  | [], _ => none
  | (k, v) :: rest, name => if k = name then some v else getattr rest name

/-- The callable built by `operator.attrgetter(name)`: it fetches the named
attribute from an item. -/
def attrgetter (name : String) : Item → Option Value :=
  fun item => getattr item name

/-- A `FieldEvaluator` as accepted by `add_column`: either an attribute-name
string or a callable from items to values (`none` models a raised
exception). -/
inductive FieldEvaluator where
  | attr (name : String)
  | fn (f : Item → Option Value)

/-- The normalisation performed by `_Column.__init__`: an attribute-name
string becomes `attrgetter(name)` at declaration time; a callable is kept
as is. -/
def normaliseEvaluator : FieldEvaluator → (Item → Option Value)
  | .attr name => attrgetter name
  | .fn f => f

mutual

/-- Python `repr` on a `Value`: strings are quoted, sequences are bracketed
with comma-separated element reprs. -/
def pyRepr : Value → String
  | .str s => "\x27" ++ s ++ "\x27"
  | .int n => toString n
  | .list vs => "[" ++ String.intercalate ", " (pyReprList vs) ++ "]"

/-- Python `repr` of each value of a list, in order. -/
def pyReprList : List Value → List String
  | [] => []
  | v :: rest => pyRepr v :: pyReprList rest

end

/-- Python `str` on a `Value`, as used by `"\x7b\x7d".format(value)` and by
`_Counter.format`. -/
def pyStr : Value → String
  | .str s => s
  | .int n => toString n
  | .list vs => "[" ++ String.intercalate ", " (pyReprList vs) ++ "]"

/-- The default `"\x7b\x7d"` format template: formatting never fails and
produces `str(value)`. -/
def fmtBrace : Value → Option String :=
  fun v => some (pyStr v)

/-- Python `sum` over the aggregate buffer: starts from `0`, succeeds only on
integer values (a non-numeric value raises `TypeError`, modelled `none`). -/
def pySum (vs : List Value) : Option Value :=
  vs.foldl
    (fun acc v =>
      match acc, v with
      | some (.int a), .int b => some (.int (a + b))
      | _, _ => none)
    (some (Value.int 0))

/-- Instantiation of a header template on one index, as `_MultiColumn.header`
performs it with `str.format`: the first `\x7b\x7d` placeholder is replaced
by the index. -/
def pyFormat (template : String) (arg : String) : String :=
  match template.splitOn "\x7b\x7d" with
  | a :: b :: rest => a ++ arg ++ String.intercalate "\x7b\x7d" (b :: rest)
  | _ => template

/-- A declared column, mirroring the `_Column` class hierarchy.  A simple
column (`_Column`) holds its normalised evaluator, format template and
aggregate flag; `_Aggregator` holds the aggregator callable; `_Counter`
holds its mutable `current` value and `step`; `_MultiColumn` additionally
holds the declared index range (modelled by its list of indices). -/
inductive Column where
  | simple (header : String) (function : Item → Option Value)
      (dataFormat : Value → Option String) (aggregate : Bool)
  | aggregatorCol (header : String) (function : List Value → Option Value)
      (dataFormat : Value → Option String) (aggregate : Bool)
  | counterCol (header : String) (current : Int) (step : Int)
  | multi (header : String) (function : Item → Option Value)
      (range_ : List Int) (dataFormat : Value → Option String)
      (aggregate : Bool)

/-- The `header` property: one label for a plain column, one label per range
index for a multi column (the template instantiated with the index). -/
def Column.header : Column → List String
  | .simple h _ _ _ => [h]
  | .aggregatorCol h _ _ _ => [h]
  | .counterCol h _ _ => [h]
  | .multi t _ r _ _ => r.map (fun i => pyFormat t (toString i))

/-- The `aggregate` attribute checked by `Writer.write`.  `_Counter` passes
no `aggregate` argument to `_Column.__init__`, so its flag is the default
`False`. -/
def Column.aggregateFlag : Column → Bool
  | .simple _ _ _ a => a
  | .aggregatorCol _ _ _ a => a
  | .counterCol _ _ _ => false
  | .multi _ _ _ _ a => a

/-- The dispatch test `isinstance(field, _Aggregator)` in `Writer.write`. -/
def Column.isAggregator : Column → Bool
  | .aggregatorCol _ _ _ _ => true
  | _ => false

/-- Whether a column is a `_Counter` (membership in `Writer._counters`). -/
def Column.isCounter : Column → Bool
  | .counterCol _ _ _ => true
  | _ => false

/-- The exceptions `Writer.write` can propagate: a raised user evaluator or
aggregator (`evalError`), a failing format template (`formatError`), `len()`
on a non-sequence (`notASequence`), and the `ValueError` of
`_MultiColumn.eval` naming the offending item and the header template. -/
inductive WriteError where
  | evalError
  | formatError
  | notASequence
  | cardinality (item : Item) (headerTemplate : String)

/-- Python sequence protocol on a `Value`, as used by `len(data)` and
iteration in `_MultiColumn.eval`: a list is itself, a string is its list of
one-character strings, an int is not a sequence (`TypeError`). -/
def Value.asSeq : Value → Option (List Value)
  | .list vs => some vs
  | .str s => some (s.toList.map (fun c => Value.str (String.mk [c])))
  | .int _ => none

/-- Evaluation of one field (`field.eval`): a simple column applies its
evaluator and wraps the result in a one-element list; an aggregator applies
its callable to the aggregate buffer; a counter yields its `current` value
ignoring the item; a multi column applies its evaluator and checks the
result has exactly as many values as the declared range, raising
`ValueError` naming the item and the header template otherwise. -/
def evalField (item : Item) (aggValues : List Value) :
    Column → Except WriteError (List Value)
  | .simple _ f _ _ =>
    match f item with
    | some v => .ok [v]
    | none => .error .evalError
  | .aggregatorCol _ g _ _ =>
    match g aggValues with
    | some v => .ok [v]
    | none => .error .evalError
  | .counterCol _ current _ => .ok [.int current]
  | .multi t f r _ _ =>
    match f item with
    | none => .error .evalError
    | some v =>
      match v.asSeq with
      | none => .error .notASequence
      | some data =>
        if data.length = r.length then .ok data
        else .error (.cardinality item t)

/-- Apply a format template to each value of a list, failing if any
application fails. -/
def formatAll (fmt : Value → Option String) : List Value → Option (List String)
  | [] => some []
  | v :: rest =>
    match fmt v, formatAll fmt rest with
    | some s, some ss => some (s :: ss)
    | _, _ => none

/-- Formatting of one field (`field.format`): a plain column formats its
single value with its template; a counter emits `str(self.current)` ignoring
the template; a multi column formats each value in turn. -/
def formatField (c : Column) (data : List Value) :
    Except WriteError (List String) :=
  match c with
  | .simple _ _ fmt _ =>
    match data with
    | d :: _ =>
      match fmt d with
      | some s => .ok [s]
      | none => .error .formatError
    | [] => .error .formatError
  | .aggregatorCol _ _ fmt _ =>
    match data with
    | d :: _ =>
      match fmt d with
      | some s => .ok [s]
      | none => .error .formatError
    | [] => .error .formatError
  | .counterCol _ current _ => .ok [toString current]
  | .multi _ _ _ fmt _ =>
    match formatAll fmt data with
    | some ss => .ok ss
    | none => .error .formatError

/-- The column loop of `Writer.write`: fields are processed in registry
order; an aggregator is evaluated against the current aggregate buffer which
is then reset; any other field is evaluated against the item; a field whose
`aggregate` flag is set appends its raw values to the buffer; the formatted
strings extend the row.  Returns the final buffer and the assembled row, or
the first error raised. -/
def writeLoop (item : Item) : List Column → List Value →
    Except WriteError (List Value × List String)
  | [], buf => .ok (buf, [])
  | f :: rest, buf =>
    match evalField item buf f with
    | .error e => .error e
    | .ok value =>
      let cleared := if f.isAggregator then [] else buf
      let newBuf := if f.aggregateFlag then cleared ++ value else cleared
      match formatField f value with
      | .error e => .error e
      | .ok strs =>
        match writeLoop item rest newBuf with
        | .error e => .error e
        | .ok (bufF, strsRest) => .ok (bufF, strs ++ strsRest)

/-- One `counter.increment()` call: a counter advances `current` by `step`,
any other column is untouched. -/
def incrementField : Column → Column
  | .counterCol h current step => .counterCol h (current + step) step
  | c => c

/-- The counter-advancement pass at the end of `Writer.write`: every counter
registered in `Writer._counters` (exactly the counter columns of the
registry, in order) is incremented once. -/
def incrementCounters (fields : List Column) : List Column :=
  fields.map incrementField

/-- The operation `Writer.write(item)`: run the column loop starting from an
empty aggregate buffer; on success advance all counters and emit the
assembled row through the external `writerow` primitive; on failure the
exception propagates, no row is emitted and the writer state is unchanged
(counters advance only after the whole column pass). -/
def write (fields : List Column) (item : Item) :
    List Column × Except WriteError (List String) :=
  match writeLoop item fields [] with
  | .error e => (fields, .error e)
  | .ok (_, row) => (incrementCounters fields, .ok row)

/-- The rows a single `write` call passes to the external `writerow`
primitive: one on success, none on failure. -/
def emittedRows (fields : List Column) (item : Item) : List (List String) :=
  match (write fields item).2 with
  | .ok row => [row]
  | .error _ => []

/-- The operation `Writer.write_all(items)`: call `write` on each item in
order; a failure propagates immediately (no catch, no skip), so the result
is the new writer state, the rows emitted before the failure, and the error
if any. -/
def write_all (fields : List Column) (items : List Item) :
    List Column × List (List String) × Option WriteError :=
  match items with
  | [] => (fields, [], none)
  | i :: rest =>
    match write fields i with
    | (f1, .error e) => (f1, [], some e)
    | (f1, .ok row) =>
      match write_all f1 rest with
      | (f2, rows, err) => (f2, row :: rows, err)

/-- A caller making consecutive `write` calls, continuing past failures
(each call either emits one row or raises; the caller catches and goes on).
Returns the final writer state and the rows emitted. -/
def writeSeq (fields : List Column) : List Item →
    List Column × List (List String)
  | [] => (fields, [])
  | i :: rest =>
    match write fields i with
    | (f1, .error _) => writeSeq f1 rest
    | (f1, .ok row) =>
      match writeSeq f1 rest with
      | (f2, rows) => (f2, row :: rows)

/-- The operation `Writer.write_header()`: one row holding every field's
header labels, concatenated in registry order. -/
def writeHeader (fields : List Column) : List String :=
  (fields.map Column.header).flatten

/-- The declaration `Writer.add_column`: append a `_Column` with the
normalised evaluator. -/
def add_column (fields : List Column) (header : String)
    (field : FieldEvaluator) (dataFormat : Value → Option String)
    (aggregate : Bool) : List Column :=
  fields ++ [Column.simple header (normaliseEvaluator field) dataFormat aggregate]

/-- The declaration `Writer.add_multi_column`: append a `_MultiColumn`;
nothing is evaluated at declaration time. -/
def add_multi_column (fields : List Column) (header : String)
    (field : FieldEvaluator) (range_ : List Int)
    (dataFormat : Value → Option String) (aggregate : Bool) : List Column :=
  fields ++ [Column.multi header (normaliseEvaluator field) range_ dataFormat aggregate]

/-- The declaration `Writer.add_counter`: append a `_Counter` starting at
`start`; it is also registered for per-row advancement. -/
def add_counter (fields : List Column) (header : String)
    (start step : Int) : List Column :=
  fields ++ [Column.counterCol header start step]

/-- The declaration `Writer.add_aggregator`: append an `_Aggregator`; no
`aggregate` argument is passed, so its flag is the default `False`. -/
def add_aggregator (fields : List Column) (header : String)
    (aggFn : List Value → Option Value)
    (dataFormat : Value → Option String) : List Column :=
  fields ++ [Column.aggregatorCol header aggFn dataFormat false]

/-- One declaration-time call on the `Writer` facade. -/
inductive Decl where
  | column (header : String) (field : FieldEvaluator)
      (dataFormat : Value → Option String) (aggregate : Bool)
  | multiColumn (header : String) (field : FieldEvaluator)
      (range_ : List Int) (dataFormat : Value → Option String)
      (aggregate : Bool)
  | counter (header : String) (start step : Int)
  | aggregator (header : String) (aggFn : List Value → Option Value)
      (dataFormat : Value → Option String)

/-- Apply one facade declaration to the registry. -/
def applyDecl (fields : List Column) : Decl → List Column
  | .column h f fmt a => add_column fields h f fmt a
  | .multiColumn h f r fmt a => add_multi_column fields h f r fmt a
  | .counter h s k => add_counter fields h s k
  | .aggregator h g fmt => add_aggregator fields h g fmt

/-- A writer built through the public facade: the registry produced by a
sequence of declaration calls. -/
def buildWriter (ds : List Decl) : List Column :=
  ds.foldl applyDecl []

/-- The single column appended to the registry by one facade declaration. -/
def declColumn : Decl → Column
  | .column h f fmt a => .simple h (normaliseEvaluator f) fmt a
  | .multiColumn h f r fmt a => .multi h (normaliseEvaluator f) r fmt a
  | .counter h s k => .counterCol h s k
  | .aggregator h g fmt => .aggregatorCol h g fmt false

/-- Total width of the header row contributed by a list of fields. -/
def headerLen (fields : List Column) : Nat :=
  (fields.map (fun c => c.header.length)).sum

/-- A field list containing no aggregator column. -/
def aggFree (fields : List Column) : Bool :=
  fields.all (fun c => !c.isAggregator)

/-- The raw values a list of (aggregator-free) fields contributes to the
aggregate buffer for a given item: the concatenation, in registry order, of
the evaluated values of the fields whose `aggregate` flag is set. -/
def contribValues (item : Item) : List Column → Except WriteError (List Value)
  | [] => .ok []
  | c :: rest =>
    match evalField item [] c with
    | .error e => .error e
    | .ok vs =>
      match contribValues item rest with
      | .error e => .error e
      | .ok acc => .ok ((if c.aggregateFlag then vs else []) ++ acc)

/-- First item of the end-to-end scenario of the spec. -/
def itemA : Item := [("name", .str "a"), ("score", .int 10)]

/-- Second item of the end-to-end scenario of the spec. -/
def itemB : Item := [("name", .str "b"), ("score", .int 20)]

/-- The writer of the end-to-end scenario: `add_column('Name','name')`,
`add_column('Score','score', aggregate=true)`, `add_aggregator('Total',
sum)`, `add_counter('ID')` (counter defaults `start=0, step=1`). -/
def writerC2 : List Column :=
  add_counter
    (add_aggregator
      (add_column
        (add_column [] "Name" (.attr "name") fmtBrace false)
        "Score" (.attr "score") fmtBrace true)
      "Total" pySum fmtBrace)
    "ID" 0 1

/-- The column loop distributes over concatenation of field lists, threading
the aggregate buffer through and concatenating the row pieces. -/
theorem writeLoop_append (item : Item) (xs ys : List Column) (buf : List Value) :
    writeLoop item (xs ++ ys) buf =
      match writeLoop item xs buf with
      | .error e => .error e
      | .ok (b, r) =>
        match writeLoop item ys b with
        | .error e => .error e
        | .ok (b2, r2) => .ok (b2, r ++ r2) := by
  induction xs generalizing buf with
  | nil =>
    simp only [List.nil_append, writeLoop]
    cases h : writeLoop item ys buf with
    | error e => rfl
    | ok p => cases p with | mk b2 r2 => simp
  | cons f rest ih =>
    simp only [List.cons_append, writeLoop]
    cases hev : evalField item buf f with
    | error e => rfl
    | ok value =>
      cases hfm : formatField f value with
      | error e => simp [hfm]
      | ok strs =>
        simp only [hfm, List.append_eq]
        rw [ih]
        cases hrest : writeLoop item rest
            (if f.aggregateFlag then
              (if f.isAggregator then [] else buf) ++ value
             else (if f.isAggregator then [] else buf)) with
        | error e => simp [hrest]
        | ok p =>
          cases p with
          | mk b r =>
            cases hys : writeLoop item ys b with
            | error e => simp [hrest, hys]
            | ok q => cases q with | mk b2 r2 => simp [hrest, hys]

/-- Successful formatting of a value list yields one string per value. -/
theorem formatAll_length (fmt : Value → Option String) (vs : List Value)
    (ss : List String) (h : formatAll fmt vs = some ss) :
    ss.length = vs.length := by
  induction vs generalizing ss with
  | nil =>
    simp only [formatAll, Option.some.injEq] at h
    subst h; rfl
  | cons v rest ih =>
    cases hf : fmt v with
    | none => simp [formatAll, hf] at h
    | some s =>
      cases hr : formatAll fmt rest with
      | none => simp [formatAll, hf, hr] at h
      | some ss2 =>
        simp only [formatAll, hf, hr, Option.some.injEq] at h
        subst h
        simp [ih ss2 hr]

/-- A field that evaluates and formats successfully contributes exactly as
many display strings as it has header labels. -/
theorem step_length (item : Item) (buf : List Value) (c : Column)
    (data : List Value) (strs : List String)
    (he : evalField item buf c = .ok data)
    (hf : formatField c data = .ok strs) :
    strs.length = c.header.length := by
  cases c with
  | simple h f fmt a =>
    cases data with
    | nil => simp [formatField] at hf
    | cons d ds =>
      cases hd : fmt d with
      | none => simp [formatField, hd] at hf
      | some s =>
        simp only [formatField, hd, Except.ok.injEq] at hf
        subst hf; rfl
  | aggregatorCol h g fmt a =>
    cases data with
    | nil => simp [formatField] at hf
    | cons d ds =>
      cases hd : fmt d with
      | none => simp [formatField, hd] at hf
      | some s =>
        simp only [formatField, hd, Except.ok.injEq] at hf
        subst hf; rfl
  | counterCol h cur st =>
    simp only [formatField, Except.ok.injEq] at hf
    subst hf; rfl
  | multi t f r fmt a =>
    cases hi : f item with
    | none => simp [evalField, hi] at he
    | some v =>
      cases hs : v.asSeq with
      | none => simp [evalField, hi, hs] at he
      | some dataV =>
        by_cases hlen : dataV.length = r.length
        · have hdata : data = dataV := by
            simp [evalField, hi, hs, hlen] at he
            exact he.symm
          subst hdata
          cases hfa : formatAll fmt data with
          | none => simp [formatField, hfa] at hf
          | some ss =>
            simp only [formatField, hfa, Except.ok.injEq] at hf
            subst hf
            simp [Column.header, formatAll_length fmt data ss hfa, hlen]
        · simp [evalField, hi, hs, hlen] at he

/-- A successfully assembled row is exactly as wide as the header row of the
fields that produced it. -/
theorem writeLoop_length (item : Item) (fields : List Column)
    (buf b : List Value) (r : List String)
    (h : writeLoop item fields buf = .ok (b, r)) :
    r.length = headerLen fields := by
  induction fields generalizing buf b r with
  | nil =>
    simp only [writeLoop, Except.ok.injEq, Prod.mk.injEq] at h
    simp [headerLen, h.2.symm]
  | cons f rest ih =>
    cases hev : evalField item buf f with
    | error e => simp [writeLoop, hev] at h
    | ok value =>
      cases hfm : formatField f value with
      | error e => simp [writeLoop, hev, hfm] at h
      | ok strs =>
        cases hrest : writeLoop item rest
            (if f.aggregateFlag then
              (if f.isAggregator then [] else buf) ++ value
             else (if f.isAggregator then [] else buf)) with
        | error e => simp [writeLoop, hev, hfm, hrest] at h
        | ok p =>
          cases p with
          | mk b2 r2 =>
            simp only [writeLoop, hev, hfm, hrest, Except.ok.injEq,
              Prod.mk.injEq] at h
            have hl := ih _ _ _ hrest
            have hs := step_length item buf f value strs hev hfm
            simp only [headerLen, List.map_cons, List.sum_cons] at *
            rw [← h.2, List.length_append, hs, hl]

/-- Evaluation of a non-aggregator field does not depend on the aggregate
buffer. -/
theorem evalField_notAgg (item : Item) (buf : List Value) (c : Column)
    (h : c.isAggregator = false) :
    evalField item buf c = evalField item [] c := by
  cases c <;> simp_all [evalField, Column.isAggregator]

/-- Over an aggregator-free field list, the aggregate buffer grows by
exactly the raw values of the aggregate-flagged fields, in registry
order. -/
theorem writeLoop_buffer (item : Item) (fs : List Column)
    (buf b : List Value) (r : List String)
    (hfree : aggFree fs = true)
    (h : writeLoop item fs buf = .ok (b, r)) :
    ∃ cv, contribValues item fs = .ok cv ∧ b = buf ++ cv := by
  induction fs generalizing buf b r with
  | nil =>
    simp only [writeLoop, Except.ok.injEq, Prod.mk.injEq] at h
    exact ⟨[], rfl, by simp [h.1.symm]⟩
  | cons f rest ih =>
    have hf : f.isAggregator = false := by
      simp only [aggFree, List.all_cons, Bool.and_eq_true] at hfree
      simpa using hfree.1
    have hfree2 : aggFree rest = true := by
      simp only [aggFree, List.all_cons, Bool.and_eq_true] at hfree
      exact hfree.2
    cases hev : evalField item buf f with
    | error e => simp [writeLoop, hev] at h
    | ok value =>
      have hev0 : evalField item [] f = .ok value := by
        rw [← evalField_notAgg item buf f hf]; exact hev
      cases hfm : formatField f value with
      | error e => simp [writeLoop, hev, hfm] at h
      | ok strs =>
        cases hrest : writeLoop item rest
            (if f.aggregateFlag then buf ++ value else buf) with
        | error e => simp [writeLoop, hev, hfm, hf, hrest] at h
        | ok p =>
          cases p with
          | mk b2 r2 =>
            simp only [writeLoop, hev, hfm, hf, Bool.false_eq_true,
              if_false, hrest, Except.ok.injEq, Prod.mk.injEq] at h
            obtain ⟨cv2, hcv2, hb2⟩ := ih _ _ _ hfree2 hrest
            refine ⟨(if f.aggregateFlag then value else []) ++ cv2, ?_, ?_⟩
            · simp only [contribValues, hev0, hcv2]
            · rw [← h.1, hb2]
              cases hfl : f.aggregateFlag <;> simp

/-- Advancing a counter does not change its header. -/
theorem incrementField_header (c : Column) :
    (incrementField c).header = c.header := by
  cases c <;> rfl

/-- The counter-advancement pass preserves the header width. -/
theorem headerLen_increment (fs : List Column) :
    headerLen (incrementCounters fs) = headerLen fs := by
  simp only [headerLen, incrementCounters, List.map_map]
  congr 1
  apply List.map_congr_left
  intro c _
  simp [incrementField_header]

/-- On a successful column pass, `write` advances the counters and emits the
assembled row. -/
theorem write_of_loop_ok (fields : List Column) (item : Item)
    (b : List Value) (row : List String)
    (h : writeLoop item fields [] = .ok (b, row)) :
    write fields item = (incrementCounters fields, .ok row) := by
  simp [write, h]

/-- On a failing column pass, `write` propagates the error and leaves the
writer state unchanged. -/
theorem write_of_loop_error (fields : List Column) (item : Item)
    (e : WriteError) (h : writeLoop item fields [] = .error e) :
    write fields item = (fields, .error e) := by
  simp [write, h]

/-- After a field list ending in a flag-false aggregator, the aggregate
buffer is empty, whatever came before. -/
theorem writeLoop_agg_resets (item : Item) (xs : List Column)
    (h0 : String) (g : List Value → Option Value)
    (fmt : Value → Option String) (buf0 b : List Value) (r : List String)
    (h : writeLoop item (xs ++ [Column.aggregatorCol h0 g fmt false]) buf0 =
      .ok (b, r)) :
    b = [] := by
  rw [writeLoop_append] at h
  cases h1 : writeLoop item xs buf0 with
  | error e => rw [h1] at h; exact absurd h (by simp)
  | ok p =>
    rw [h1] at h
    cases p with
    | mk b1 r1 =>
      cases hg : g b1 with
      | none =>
        simp [writeLoop, evalField, hg] at h
      | some w =>
        simp only [writeLoop, evalField, hg, Column.isAggregator,
          Column.aggregateFlag, formatField] at h
        cases hw : fmt w with
        | none => simp [hw] at h
        | some s =>
          simp only [hw, Bool.false_eq_true, if_false, if_true,
            Except.ok.injEq, Prod.mk.injEq] at h
          exact h.1.symm

/-- In a successfully assembled row, the cell at the position of a counter
column is the string of the counter's `current` value. -/
theorem writeLoop_counter_cell (item : Item) (fsL fsR : List Column)
    (h0 : String) (s k : Int) (b : List Value) (r : List String)
    (h : writeLoop item (fsL ++ Column.counterCol h0 s k :: fsR) [] =
      .ok (b, r)) :
    r[headerLen fsL]? = some (toString s) := by
  rw [writeLoop_append] at h
  cases h1 : writeLoop item fsL [] with
  | error e => rw [h1] at h; exact absurd h (by simp)
  | ok p =>
    rw [h1] at h
    cases p with
    | mk b1 r1 =>
      cases h2 : writeLoop item fsR b1 with
      | error e =>
        simp [writeLoop, evalField, formatField, Column.isAggregator,
          Column.aggregateFlag, h2] at h
      | ok q =>
        cases q with
        | mk b2 r2 =>
          simp only [writeLoop, evalField, formatField, Column.isAggregator,
            Column.aggregateFlag, Bool.false_eq_true, if_false, h2,
            Except.ok.injEq, Prod.mk.injEq] at h
          have hr1 : r1.length = headerLen fsL := writeLoop_length item fsL [] b1 r1 h1
          rw [← h.2, ← hr1]
          rw [List.getElem?_append_right (Nat.le_refl _)]
          simp

/-- Each facade declaration appends exactly one column to the registry. -/
theorem applyDecl_eq (fields : List Column) (d : Decl) :
    applyDecl fields d = fields ++ [declColumn d] := by
  cases d <;> rfl

/-- The registry built by a sequence of facade declarations is the list of
their columns, in declaration order. -/
theorem foldl_applyDecl (ds : List Decl) (init : List Column) :
    ds.foldl applyDecl init = init ++ ds.map declColumn := by
  induction ds generalizing init with
  | nil => simp
  | cons d rest ih =>
    simp only [List.foldl_cons, List.map_cons]
    rw [applyDecl_eq, ih]
    simp

/-- The header row is as wide as the sum of the fields' header widths. -/
theorem writeHeader_length (fields : List Column) :
    (writeHeader fields).length = headerLen fields := by
  simp [writeHeader, headerLen, List.length_flatten, List.map_map]
  rfl

/-- C1: every Aggregator Column receives exactly the ordered raw values
contributed by aggregate-flagged columns evaluated since the previous
Aggregator Column in the same row (or since the start of the row if none
precedes it), never values contributed before an earlier Aggregator: for a
registry `fs0 ++ fsA` where `fs0` is empty or ends with an (API-built,
flag-false) Aggregator and `fsA` is aggregator-free, the buffer handed to a
next Aggregator is exactly the contribution of `fsA`; in particular, for
columns `[A(aggregate), B(aggregate), Agg1, C(aggregate), Agg2]`, `Agg1`
is applied to `[A(item), B(item)]` and `Agg2` to `[C(item)]`. -/
theorem aggregator_window :
    (∀ (item : Item) (fs0 fsA : List Column) (b : List Value) (r : List String),
      aggFree fsA = true →
      (fs0 = [] ∨ ∃ fs0x h0 g0 f0,
        fs0 = fs0x ++ [Column.aggregatorCol h0 g0 f0 false]) →
      writeLoop item (fs0 ++ fsA) [] = .ok (b, r) →
      ∃ cv, contribValues item fsA = .ok cv ∧ b = cv ∧
        ∀ (h : String) (g : List Value → Option Value)
          (fmt : Value → Option String),
          evalField item b (Column.aggregatorCol h g fmt false) =
            (match g cv with
             | some v => .ok [v]
             | none => .error .evalError)) ∧
    (∀ (item : Item) (a b c : Item → Option Value)
      (g1 g2 : List Value → Option Value) (va vb vc w1 w2 : Value),
      a item = some va → b item = some vb → c item = some vc →
      g1 [va, vb] = some w1 → g2 [vc] = some w2 →
      (write [Column.simple "A" a fmtBrace true,
              Column.simple "B" b fmtBrace true,
              Column.aggregatorCol "Agg1" g1 fmtBrace false,
              Column.simple "C" c fmtBrace true,
              Column.aggregatorCol "Agg2" g2 fmtBrace false] item).2 =
        .ok [pyStr va, pyStr vb, pyStr w1, pyStr vc, pyStr w2]) := by
  constructor
  · intro item fs0 fsA b r hfree hshape h
    rcases hshape with rfl | ⟨fs0x, h0, g0, f0, rfl⟩
    · rw [List.nil_append] at h
      obtain ⟨cv, hcv, hb⟩ := writeLoop_buffer item fsA [] b r hfree h
      rw [List.nil_append] at hb
      exact ⟨cv, hcv, hb, fun hh g fmt => by rw [hb]; rfl⟩
    · rw [writeLoop_append] at h
      cases h1 : writeLoop item (fs0x ++ [Column.aggregatorCol h0 g0 f0 false]) [] with
      | error e => rw [h1] at h; exact absurd h (by simp)
      | ok p =>
        cases p with
        | mk b0 r0 =>
          have hb0 : b0 = [] := writeLoop_agg_resets item fs0x h0 g0 f0 [] b0 r0 h1
          subst hb0
          rw [h1] at h
          cases h2 : writeLoop item fsA [] with
          | error e => simp [h2] at h
          | ok q =>
            cases q with
            | mk b2 r2 =>
              simp only [h2, Except.ok.injEq, Prod.mk.injEq] at h
              obtain ⟨cv, hcv, hb⟩ := writeLoop_buffer item fsA [] b2 r2 hfree h2
              rw [List.nil_append] at hb
              refine ⟨cv, hcv, ?_, ?_⟩
              · rw [← h.1]; exact hb
              · intro hh g fmt
                rw [← h.1, hb]; rfl
  · intro item a b c g1 g2 va vb vc w1 w2 ha hb hc hg1 hg2
    simp [write, writeLoop, evalField, formatField, fmtBrace,
      Column.isAggregator, Column.aggregateFlag, ha, hb, hc, hg1, hg2]

/-- Witness for C1 at concrete inputs: a one-column aggregator-free window,
and the five-column scenario with integer values and `sum`. -/
theorem aggregator_window_witness :
    (∃ cv, contribValues []
        [Column.simple "A" (fun _ => some (Value.int 1)) fmtBrace true] =
          .ok cv ∧
      [Value.int 1] = cv ∧
      ∀ (h : String) (g : List Value → Option Value)
        (fmt : Value → Option String),
        evalField [] [Value.int 1] (Column.aggregatorCol h g fmt false) =
          (match g cv with
           | some v => .ok [v]
           | none => .error .evalError)) ∧
    (write [Column.simple "A" (fun _ => some (Value.int 1)) fmtBrace true,
            Column.simple "B" (fun _ => some (Value.int 2)) fmtBrace true,
            Column.aggregatorCol "Agg1" pySum fmtBrace false,
            Column.simple "C" (fun _ => some (Value.int 3)) fmtBrace true,
            Column.aggregatorCol "Agg2" pySum fmtBrace false] []).2 =
      .ok [pyStr (Value.int 1), pyStr (Value.int 2), pyStr (Value.int 3),
           pyStr (Value.int 3), pyStr (Value.int 3)] :=
  ⟨aggregator_window.1 [] []
      [Column.simple "A" (fun _ => some (Value.int 1)) fmtBrace true]
      [Value.int 1] ["1"] rfl (Or.inl rfl) rfl,
   aggregator_window.2 [] (fun _ => some (Value.int 1))
      (fun _ => some (Value.int 2)) (fun _ => some (Value.int 3)) pySum pySum
      (Value.int 1) (Value.int 2) (Value.int 3) (Value.int 3) (Value.int 3)
      rfl rfl rfl rfl rfl⟩

/-- C2: on the writer declared `add_column('Name','name')`,
`add_column('Score','score', aggregate=true)`, `add_aggregator('Total', sum)`,
`add_counter('ID')`, `write_header()` emits `["Name","Score","Total","ID"]`
and writing the two scenario items emits `["a","10","10","0"]` then
`["b","20","20","1"]`, with no error. -/
theorem end_to_end_scenario :
    writeHeader writerC2 = ["Name", "Score", "Total", "ID"] ∧
    (write_all writerC2 [itemA, itemB]).2.1 =
      [["a", "10", "10", "0"], ["b", "20", "20", "1"]] ∧
    (write_all writerC2 [itemA, itemB]).2.2 = none :=
  ⟨rfl, rfl, rfl⟩

/-- C3: for a writer holding a counter declared with `start=s, step=k` at any
registry position, the counter's column cell of the `i`-th row emitted over
any sequence of consecutive `write` calls is `s + i*k` — failing calls
(whatever unrelated column failed) emit no row and consume no counter
value, and other columns do not affect the progression. -/
theorem counter_progression (items : List Item) (fsL fsR : List Column)
    (h0 : String) (s k : Int) (i : Nat) (row : List String)
    (hrow : ((writeSeq (fsL ++ Column.counterCol h0 s k :: fsR) items).2)[i]? =
      some row) :
    row[headerLen fsL]? = some (toString (s + (i : Int) * k)) := by
  induction items generalizing fsL fsR s i row with
  | nil => simp [writeSeq] at hrow
  | cons it rest ih =>
    cases hL : writeLoop it (fsL ++ Column.counterCol h0 s k :: fsR) [] with
    | error e =>
      rw [writeSeq, write_of_loop_error _ it e hL] at hrow
      exact ih fsL fsR s i row hrow
    | ok p =>
      cases p with
      | mk bf row0 =>
        rw [writeSeq, write_of_loop_ok _ it bf row0 hL] at hrow
        have hinc : incrementCounters (fsL ++ Column.counterCol h0 s k :: fsR) =
            incrementCounters fsL ++
              Column.counterCol h0 (s + k) k :: incrementCounters fsR := by
          simp [incrementCounters, incrementField]
        cases hws : writeSeq
            (incrementCounters (fsL ++ Column.counterCol h0 s k :: fsR)) rest with
        | mk f2 rows =>
          simp only [hws] at hrow
          cases i with
          | zero =>
            simp only [List.getElem?_cons_zero, Option.some.injEq] at hrow
            subst hrow
            have hc := writeLoop_counter_cell it fsL fsR h0 s k bf row0 hL
            simpa using hc
          | succ j =>
            simp only [List.getElem?_cons_succ] at hrow
            have hrow2 : ((writeSeq (incrementCounters fsL ++
                Column.counterCol h0 (s + k) k :: incrementCounters fsR)
                rest).2)[j]? = some row := by
              rw [← hinc, hws]
              exact hrow
            have := ih (incrementCounters fsL) (incrementCounters fsR)
              (s + k) j row hrow2
            rw [headerLen_increment] at this
            rw [show s + ((j + 1 : Nat) : Int) * k = s + k + (j : Int) * k by
              push_cast; ring]
            exact this

/-- Witness for C3: counter `start=5, step=3` after one successful write, one
failed write (missing attribute in an unrelated column) and another
successful write — the second emitted row still carries `5 + 1*3`. -/
theorem counter_progression_witness :
    (["v", "8"] : List String)[headerLen
        [Column.simple "X" (fun i => getattr i "x") fmtBrace false]]? =
      some (toString (5 + (1 : Int) * 3)) :=
  counter_progression [[("x", Value.str "v")], [], [("x", Value.str "v")]]
    [Column.simple "X" (fun i => getattr i "x") fmtBrace false] [] "ID" 5 3 1
    ["v", "8"] rfl

/-- C4: a Multi Column whose evaluator returns a sequence of the wrong
length is accepted at declaration time (the declaration appends the column
without evaluating anything), and `write`/`write_all` on such an item fail
with the error naming the offending item and the column's header
template. -/
theorem multi_cardinality (t : String) (ev : FieldEvaluator) (r : List Int)
    (fmt : Value → Option String) (a : Bool) (item : Item) (vs : List Value)
    (hev : normaliseEvaluator ev item = some (.list vs))
    (hlen : vs.length ≠ r.length) :
    add_multi_column [] t ev r fmt a =
      [Column.multi t (normaliseEvaluator ev) r fmt a] ∧
    (write (add_multi_column [] t ev r fmt a) item).2 =
      .error (.cardinality item t) ∧
    (write_all (add_multi_column [] t ev r fmt a) [item]).2.2 =
      some (.cardinality item t) := by
  refine ⟨by simp [add_multi_column], ?_, ?_⟩
  · simp [add_multi_column, write, writeLoop, evalField, hev, Value.asSeq, hlen]
  · simp [write_all, add_multi_column, write, writeLoop, evalField, hev,
      Value.asSeq, hlen]

/-- Witness for C4: `add_multi_column('col{}', f, range(1,4))` with an
evaluator returning two values fails at write time with the cardinality
error, not at declaration time. -/
theorem multi_cardinality_witness :
    add_multi_column [] "col\x7b\x7d"
        (.fn (fun _ => some (Value.list [Value.int 7, Value.int 8])))
        [1, 2, 3] fmtBrace false =
      [Column.multi "col\x7b\x7d"
        (normaliseEvaluator
          (.fn (fun _ => some (Value.list [Value.int 7, Value.int 8]))))
        [1, 2, 3] fmtBrace false] ∧
    (write (add_multi_column [] "col\x7b\x7d"
        (.fn (fun _ => some (Value.list [Value.int 7, Value.int 8])))
        [1, 2, 3] fmtBrace false) []).2 =
      .error (.cardinality [] "col\x7b\x7d") ∧
    (write_all (add_multi_column [] "col\x7b\x7d"
        (.fn (fun _ => some (Value.list [Value.int 7, Value.int 8])))
        [1, 2, 3] fmtBrace false) [[]]).2.2 =
      some (.cardinality [] "col\x7b\x7d") :=
  multi_cardinality "col\x7b\x7d"
    (.fn (fun _ => some (Value.list [Value.int 7, Value.int 8])))
    [1, 2, 3] fmtBrace false [] [Value.int 7, Value.int 8] rfl (by decide)

/-- C5: when any column's evaluation or formatting fails during `write`, no
row — not even a partial one — is passed to the external `writerow`
primitive, the error propagates, and `write_all` stops at the failing item
without catching the failure or continuing with subsequent items. -/
theorem failure_aborts_row :
    (∀ (fields : List Column) (item : Item) (e : WriteError),
      (write fields item).2 = .error e → emittedRows fields item = []) ∧
    (∀ (fields : List Column) (item : Item) (rest : List Item) (e : WriteError),
      (write fields item).2 = .error e →
      write_all fields (item :: rest) = (fields, [], some e)) := by
  constructor
  · intro fields item e h
    simp [emittedRows, h]
  · intro fields item rest e h
    cases hL : writeLoop item fields [] with
    | error e2 =>
      have hw := write_of_loop_error fields item e2 hL
      rw [hw] at h
      simp only [Except.error.injEq] at h
      subst h
      simp [write_all, hw]
    | ok p =>
      cases p with
      | mk b r =>
        rw [write_of_loop_ok fields item b r hL] at h
        exact absurd h (by simp)

/-- Witness for C5: a writer whose only column looks up a missing attribute
emits nothing, and `write_all` returns the error with no rows. -/
theorem failure_aborts_row_witness :
    emittedRows [Column.simple "X" (attrgetter "missing") fmtBrace false] [] =
      [] ∧
    write_all [Column.simple "X" (attrgetter "missing") fmtBrace false] [[]] =
      ([Column.simple "X" (attrgetter "missing") fmtBrace false], [],
        some .evalError) :=
  ⟨failure_aborts_row.1 _ [] .evalError rfl,
   failure_aborts_row.2 _ [] [] .evalError rfl⟩

/-- C6: `write_header()` emits one flat row that concatenates, in registry
order, every column's header labels, so its length is the sum of the
per-column header lengths; a Multi Column's labels are its template
instantiated with each range index in order, and Simple, Counter and
Aggregator columns contribute exactly one label each. -/
theorem write_header_spec (fields : List Column) :
    writeHeader fields = (fields.map Column.header).flatten ∧
    (writeHeader fields).length =
      (fields.map (fun c => c.header.length)).sum ∧
    (∀ (t : String) (f : Item → Option Value) (r : List Int)
      (fmt : Value → Option String) (a : Bool),
      (Column.multi t f r fmt a).header =
        r.map (fun i => pyFormat t (toString i))) ∧
    (∀ (h : String) (f : Item → Option Value)
      (fmt : Value → Option String) (a : Bool),
      (Column.simple h f fmt a).header = [h]) ∧
    (∀ (h : String) (cur st : Int), (Column.counterCol h cur st).header = [h]) ∧
    (∀ (h : String) (g : List Value → Option Value)
      (fmt : Value → Option String) (a : Bool),
      (Column.aggregatorCol h g fmt a).header = [h]) := by
  refine ⟨rfl, ?_, fun t f r fmt a => rfl, fun h f fmt a => rfl,
    fun h cur st => rfl, fun h g fmt a => rfl⟩
  exact writeHeader_length fields

/-- C7: a column declared with the attribute-name string is the same column
as one declared with the callable fetching that attribute (the string is
normalised at declaration time), so their outputs agree on every item; an
item lacking the attribute makes `write` fail at use time, while the
declaration itself always succeeds. -/
theorem attr_evaluator_equiv :
    (∀ (fields : List Column) (h name : String)
      (fmt : Value → Option String) (a : Bool),
      add_column fields h (.attr name) fmt a =
        add_column fields h (.fn (fun i => getattr i name)) fmt a) ∧
    (∀ (h name : String) (fmt : Value → Option String) (a : Bool) (item : Item),
      getattr item name = none →
      (write (add_column [] h (.attr name) fmt a) item).2 =
        .error .evalError) := by
  constructor
  · intro fields h name fmt a
    rfl
  · intro h name fmt a item hnone
    simp [add_column, write, writeLoop, evalField, normaliseEvaluator,
      attrgetter, hnone]

/-- Witness for C7: the two declarations coincide for attribute `name`, and
writing an item without that attribute fails with the lookup error. -/
theorem attr_evaluator_equiv_witness :
    add_column [] "x" (.attr "name") fmtBrace false =
      add_column [] "x" (.fn (fun i => getattr i "name")) fmtBrace false ∧
    (write (add_column [] "x" (.attr "name") fmtBrace false) []).2 =
      .error .evalError :=
  ⟨attr_evaluator_equiv.1 [] "x" "name" fmtBrace false,
   attr_evaluator_equiv.2 "x" "name" fmtBrace false [] rfl⟩

/-- C8: in any writer built through the facade, Counter and Aggregator
columns have a false aggregate flag (they never contribute to the Aggregate
Buffer), and over any aggregator-free stretch of the registry the buffer
receives exactly the raw (unformatted) evaluated values of the
aggregate-flagged columns, appended in registry order. -/
theorem aggregate_buffer_spec :
    (∀ (ds : List Decl) (c : Column), c ∈ buildWriter ds →
      c.isAggregator = true ∨ c.isCounter = true → c.aggregateFlag = false) ∧
    (∀ (item : Item) (fs : List Column) (buf b : List Value) (r : List String),
      aggFree fs = true → writeLoop item fs buf = .ok (b, r) →
      ∃ cv, contribValues item fs = .ok cv ∧ b = buf ++ cv) := by
  constructor
  · intro ds c hmem hkind
    rw [buildWriter, foldl_applyDecl, List.nil_append] at hmem
    obtain ⟨d, _, rfl⟩ := List.mem_map.mp hmem
    cases d with
    | column h f fmt a =>
      cases hkind with
      | inl hk => simp [declColumn, Column.isAggregator] at hk
      | inr hk => simp [declColumn, Column.isCounter] at hk
    | multiColumn h f r fmt a =>
      cases hkind with
      | inl hk => simp [declColumn, Column.isAggregator] at hk
      | inr hk => simp [declColumn, Column.isCounter] at hk
    | counter h s k => rfl
    | aggregator h g fmt => rfl
  · intro item fs buf b r hfree h
    exact writeLoop_buffer item fs buf b r hfree h

/-- Witness for C8: an API-declared counter has a false aggregate flag, and
one aggregate-flagged simple column contributes exactly its raw value to the
buffer. -/
theorem aggregate_buffer_spec_witness :
    (Column.counterCol "ID" 0 1).aggregateFlag = false ∧
    (∃ cv, contribValues []
        [Column.simple "A" (fun _ => some (Value.int 1)) fmtBrace true] =
          .ok cv ∧
      [Value.int 1] = [] ++ cv) :=
  ⟨aggregate_buffer_spec.1 [Decl.counter "ID" 0 1]
      (Column.counterCol "ID" 0 1) (List.Mem.head _) (Or.inr rfl),
   aggregate_buffer_spec.2 []
      [Column.simple "A" (fun _ => some (Value.int 1)) fmtBrace true]
      [] [Value.int 1] ["1"] rfl rfl⟩

/-- C9: a `write` call that fails leaves the writer state — in particular
every Counter Column's `current` value — unchanged, because counter
advancement happens only after the whole column pass completes; a
successful call advances every counter exactly once. -/
theorem failed_write_keeps_counters :
    (∀ (fields : List Column) (item : Item) (e : WriteError),
      (write fields item).2 = .error e → (write fields item).1 = fields) ∧
    (∀ (fields : List Column) (item : Item) (row : List String),
      (write fields item).2 = .ok row →
      (write fields item).1 = incrementCounters fields) := by
  constructor
  · intro fields item e h
    cases hL : writeLoop item fields [] with
    | error e2 => rw [write_of_loop_error fields item e2 hL]
    | ok p =>
      cases p with
      | mk b r =>
        rw [write_of_loop_ok fields item b r hL] at h
        exact absurd h (by simp)
  · intro fields item row h
    cases hL : writeLoop item fields [] with
    | error e2 =>
      rw [write_of_loop_error fields item e2 hL] at h
      exact absurd h (by simp)
    | ok p =>
      cases p with
      | mk b r => rw [write_of_loop_ok fields item b r hL]

/-- Witness for C9: a failed write (missing attribute) leaves the counter at
its declared start, while a successful write advances it. -/
theorem failed_write_keeps_counters_witness :
    (write [Column.simple "X" (attrgetter "missing") fmtBrace false,
            Column.counterCol "ID" 0 1] []).1 =
      [Column.simple "X" (attrgetter "missing") fmtBrace false,
       Column.counterCol "ID" 0 1] ∧
    (write [Column.counterCol "ID" 0 1] []).1 =
      incrementCounters [Column.counterCol "ID" 0 1] :=
  ⟨failed_write_keeps_counters.1 _ [] .evalError rfl,
   failed_write_keeps_counters.2 _ [] [toString (0 : Int)] rfl⟩

/-- C10: every successfully written data row is exactly as long as the
header row, because every column that evaluates and formats successfully
contributes exactly as many display strings as it has header labels (one for
Simple, Counter and Aggregator columns; one per range index for a Multi
Column). -/
theorem row_matches_header :
    (∀ (fields : List Column) (item : Item) (row : List String),
      (write fields item).2 = .ok row →
      row.length = (writeHeader fields).length) ∧
    (∀ (item : Item) (buf : List Value) (c : Column) (data : List Value)
      (strs : List String), evalField item buf c = .ok data →
      formatField c data = .ok strs → strs.length = c.header.length) := by
  constructor
  · intro fields item row h
    cases hL : writeLoop item fields [] with
    | error e => rw [write_of_loop_error fields item e hL] at h; exact absurd h (by simp)
    | ok p =>
      cases p with
      | mk b r =>
        rw [write_of_loop_ok fields item b r hL] at h
        simp only [Except.ok.injEq] at h
        subst h
        rw [writeHeader_length]
        exact writeLoop_length item fields [] b r hL
  · intro item buf c data strs he hf
    exact step_length item buf c data strs he hf

/-- Witness for C10: a two-index multi column produces a two-cell row
matching its two-label header. -/
theorem row_matches_header_witness :
    (["1", "2"] : List String).length =
      (writeHeader [Column.multi "c\x7b\x7d"
        (fun _ => some (Value.list [Value.int 1, Value.int 2]))
        [1, 2] fmtBrace false]).length ∧
    (["1", "2"] : List String).length =
      (Column.multi "c\x7b\x7d"
        (fun _ => some (Value.list [Value.int 1, Value.int 2]))
        [1, 2] fmtBrace false).header.length :=
  ⟨row_matches_header.1 [Column.multi "c\x7b\x7d"
      (fun _ => some (Value.list [Value.int 1, Value.int 2]))
      [1, 2] fmtBrace false] [] ["1", "2"] rfl,
   row_matches_header.2 [] [] (Column.multi "c\x7b\x7d"
      (fun _ => some (Value.list [Value.int 1, Value.int 2]))
      [1, 2] fmtBrace false) [Value.int 1, Value.int 2] ["1", "2"] rfl rfl⟩

end List2csv
